import Mathlib

/-!
Verification of the Wanderlust PATH-healing core (src/cleaner.rs) against its
specification.  The Rust functions are shallowly embedded as Lean functions:
Lean `String` models Rust `String` and `PathBuf` (path buffers round-trip
through `to_string_lossy`), `Option` models panics, and the `SystemOps`
capability surface is modelled by an explicit state record together with a
fault-injection record fixing the outcome of each fallible operation.
-/

namespace Wanderlust

/-- ASCII lowercase folding of one character.  Models the lowercasing done by
Rust `str::to_lowercase` on the ASCII range (the paths manipulated by the
program are drive-letter Windows paths). -/
def lowerChar (c : Char) : Char :=
  if c.toNat ≥ 65 ∧ c.toNat ≤ 90 then Char.ofNat (c.toNat + 32) else c

/-- Models Rust `str::to_lowercase`. -/
def lowerStr (s : String) : String :=
  String.mk (s.data.map lowerChar)

/-- `normalize_path` from src/cleaner.rs:372-375: lowercase the textual form
of a path (`p.to_string_lossy().to_string().to_lowercase()`). -/
def normalize_path (s : String) : String := lowerStr s

/-- Helper for `splitSemi`: splits a character list at each ';', keeping
empty segments, exactly as Rust `str::split(';')` does. -/
def splitSemiAux : List Char → List Char → List String
  | [], acc => [String.mk acc.reverse]
  | c :: rest, acc =>
    if c = ';' then String.mk acc.reverse :: splitSemiAux rest []
    else splitSemiAux rest (c :: acc)

/-- Rust `s.split(';')` as a list of segments (empty segments included). -/
def splitSemi (s : String) : List String := splitSemiAux s.data []

/-- Rust `Vec::join(sep)`. -/
def joinSep (sep : String) : List String → String
  | [] => ""
  | [x] => x
  | x :: xs => x ++ sep ++ joinSep sep xs

/-- Helper for `containsSub`: scans down the character list looking for the
pattern as a prefix at each position. -/
def containsSubAux (pat : List Char) : List Char → Bool
  | [] => pat.isEmpty
  | c :: rest => pat.isPrefixOf (c :: rest) || containsSubAux pat rest

/-- Rust `str::contains(pat)` (substring containment). -/
def containsSub (s pat : String) : Bool := containsSubAux pat.data s.data

/-- Rust `str::starts_with(pat)`. -/
def strStarts (s pat : String) : Bool := pat.data.isPrefixOf s.data

/-- The literal `"\windows\"` segment tested by `build_minimal_path`. -/
def winSegment : String := "\\windows\\"

/-- The literal `"c:\windows"` prefix tested by `build_minimal_path`. -/
def winRoot : String := "c:\\windows"

/-- The Windows-directory exclusion test of `build_minimal_path`
(src/cleaner.rs:336):
`path_str.contains("\\windows\\") || path_str.starts_with("c:\\windows")`. -/
def windowsSkip (s : String) : Bool :=
  containsSub s winSegment || strStarts s winRoot

/-- The deduplication loop of `clean_system_path` (src/cleaner.rs:54-61):
skip empty segments and keep the first-seen variant of each lowercased form.
`seen` is the set of lowercased forms already kept. -/
def cleanParts : List String → List String → List String
  | [], _ => []
  | p :: rest, seen =>
    if p = "" then cleanParts rest seen
    else if lowerStr p ∈ seen then cleanParts rest seen
    else p :: cleanParts rest (lowerStr p :: seen)

/-- The deduplicated machine-scope entry sequence computed by
`clean_system_path` from the raw machine-scope value. -/
def cleanedList (sysStr : String) : List String := cleanParts (splitSemi sysStr) []

/-- The nonempty entries of a `PathValue` string:
`split(';').filter(|s| !s.is_empty())`. -/
def pathEntries (s : String) : List String :=
  (splitSemi s).filter (fun e => e ≠ "")

/-- The normalized machine-scope exclusion set of `build_minimal_path`
(src/cleaner.rs:317-322). -/
def sysNorm (sysStr : String) : List String :=
  (pathEntries sysStr).map normalize_path

/-- The candidate loop of `build_minimal_path` (src/cleaner.rs:330-345).
`seen` starts as the normalized machine-scope entries; the kept entries are
the normalized forms themselves (`user_paths.push(norm)`). -/
def buildLoop : List String → List String → List String
  | [], _ => []
  | c :: rest, seen =>
    let norm := normalize_path c
    let path_str := lowerStr norm
    if windowsSkip path_str then buildLoop rest seen
    else if norm ∈ seen then buildLoop rest seen
    else norm :: buildLoop rest (norm :: seen)

/-- Lexicographic comparison of character lists, by the character order. -/
def charListLe : List Char → List Char → Bool
  | [], _ => true
  | _ :: _, [] => false
  | a :: as, b :: bs => if a < b then true else if a = b then charListLe as bs else false

/-- Lexicographic order on strings, used to model `Vec<PathBuf>::sort()`. -/
def strLeb (a b : String) : Bool := charListLe a.data b.data

/-- `strLeb` as a relation, for `List.Sorted` statements. -/
abbrev strLe (a b : String) : Prop := strLeb a b = true

/-- The sorted user-scope entry sequence built by `build_minimal_path`
(src/cleaner.rs:314-367).  The candidate map is given as the list of its
value vectors in iteration order (`map.values()`), each candidate by the
textual form of its directory; the machine-scope value read at build time is
the `sysStr` argument.  `Vec<PathBuf>::sort()` is modelled as sorting the
normalized path strings lexicographically. -/
def build_minimal_path_list (candLists : List (List String)) (sysStr : String) :
    List String :=
  List.insertionSort strLe (buildLoop candLists.flatten (sysNorm sysStr))

/-- `build_minimal_path`: the user-scope `PathValue` string, the entry
sequence joined with ';' (src/cleaner.rs:363-366). -/
def build_minimal_path (candLists : List (List String)) (sysStr : String) : String :=
  joinSep ";" (build_minimal_path_list candLists sysStr)

/-- Rust `path.replace('\\', "/")` on a single character. -/
def replBack (c : Char) : Char := if c = '\\' then '/' else c

/-- `win_to_posix` (src/cleaner.rs:382-390).  Returns `none` where the Rust
code panics: `&s[2..]` slices the UTF-8 string at byte offset 2, which falls
inside the first character when that character occupies three or more bytes.
For a two-byte first character, byte offset 2 is the boundary *before* the
':', so the colon is kept in the output.  The drive letter is lowercased with
`to_lowercase().next().unwrap()`, modelled by `lowerChar`. -/
def win_to_posix (path : String) : Option String :=
  let s := path.data.map replBack
  match s with
  | c0 :: c1 :: rest =>
    if c1 = ':' then
      if c0.utf8Size = 1 then some (String.mk ('/' :: lowerChar c0 :: rest))
      else if c0.utf8Size = 2 then some (String.mk ('/' :: lowerChar c0 :: ':' :: rest))
      else none
    else some (String.mk s)
  | _ => some (String.mk s)

/-- One observable side effect of the healing flow, in execution order. -/
inductive Effect where
  | backupAttempt (content : String) : Effect
  | backupDirFail : Effect
  | userWrite (v : String) (ok : Bool) : Effect
  | machineWrite (v : String) (ok : Bool) : Effect
  | broadcast : Effect
  | probe (ok : Bool) : Effect
  | posixWrite (content : String) : Effect
  deriving DecidableEq

/-- The mutable world visible through `SystemOps`: the two registry scopes
(`none` models an absent/unreadable value), the backup and POSIX-mirror files
written, counters for broadcasts and verification probes, and the ordered
effect trace. -/
structure Sys where
  userPath : Option String
  machinePath : Option String
  backupFiles : List String
  posixFiles : List String
  broadcasts : Nat
  verifies : Nat
  trace : List Effect
  deriving DecidableEq

/-- Outcome of each fallible operation during one run: fault injection for
the production `SystemOps` adapter. -/
structure Faults where
  baseDirsOk : Bool      -- directories::BaseDirs::new() returns Some
  createDirOk : Bool     -- std::fs::create_dir_all for the backup directory
  backupWriteOk : Bool   -- SystemOps::write_backup_file
  userWrite1Ok : Bool    -- the mutating write_user_path_registry(new_val)
  rollbackWriteOk : Bool -- the rollback write_user_path_registry(old_val)
  verifyOk : Bool        -- SystemOps::verify_environment_health
  userDirsOk : Bool      -- directories::UserDirs::new() returns Some
  posixCreateOk : Bool   -- File::create of the .wanderlust_posix file
  machineWriteOk : Bool  -- write_system_path_registry
  deriving DecidableEq

/-- Escapes one character for the `.reg` backup format, modelling
`old_val.replace("\\", "\\\\").replace("\"", "\\\"")` (src/cleaner.rs:417). -/
def escChar (c : Char) : List Char :=
  if c = '\\' then ['\\', '\\'] else if c = '"' then ['\\', '"'] else [c]

/-- The `.reg`-escaped form of the previous user-scope value. -/
def escapeReg (s : String) : String := String.mk (s.data.map escChar).flatten

/-- The backup file contents written by `apply_path` (src/cleaner.rs:418-421). -/
def regContent (old_val : String) : String :=
  "Windows Registry Editor Version 5.00\n\n[HKEY_CURRENT_USER\\Environment]\n\"Path\"=\"" ++
    escapeReg old_val ++ "\"\n"

/-- Result of `apply_path`: success, or one of its three error categories --
a propagated registry-write error, the ordinary rolled-back failure, and the
manual-recovery bail used when the rollback write itself fails. -/
inductive ApplyResult where
  | ok : ApplyResult
  | writeFailed : ApplyResult
  | rolledBack : ApplyResult
  | unrecoverable : ApplyResult
  deriving DecidableEq

/-- `apply_path` (src/cleaner.rs:401-457): read the old value (absence reads
as ""), best-effort backup, write the new value, broadcast twice, verify, and
on verification failure roll back to the previously read value, escalating to
`unrecoverable` when the rollback write itself fails. -/
def apply_path (f : Faults) (st : Sys) (new_val : String) : ApplyResult × Sys :=
  let old_val := (st.userPath).getD ""
  let st1 :=
    if f.baseDirsOk then
      if f.createDirOk then
        if f.backupWriteOk then
          { st with backupFiles := st.backupFiles ++ [regContent old_val],
                    trace := st.trace ++ [Effect.backupAttempt (regContent old_val)] }
        else
          { st with trace := st.trace ++ [Effect.backupAttempt (regContent old_val)] }
      else { st with trace := st.trace ++ [Effect.backupDirFail] }
    else st
  if f.userWrite1Ok then
    let st2 := { st1 with userPath := some new_val,
                          trace := st1.trace ++ [Effect.userWrite new_val true] }
    let st3 := { st2 with broadcasts := st2.broadcasts + 2,
                          trace := st2.trace ++ [Effect.broadcast, Effect.broadcast] }
    let st4 := { st3 with verifies := st3.verifies + 1,
                          trace := st3.trace ++ [Effect.probe f.verifyOk] }
    if f.verifyOk then (ApplyResult.ok, st4)
    else if f.rollbackWriteOk then
      let st5 := { st4 with userPath := some old_val,
                            trace := st4.trace ++ [Effect.userWrite old_val true] }
      let st6 := { st5 with broadcasts := st5.broadcasts + 1,
                            trace := st5.trace ++ [Effect.broadcast] }
      (ApplyResult.rolledBack, st6)
    else
      (ApplyResult.unrecoverable,
        { st4 with trace := st4.trace ++ [Effect.userWrite old_val false] })
  else
    (ApplyResult.writeFailed,
      { st1 with trace := st1.trace ++ [Effect.userWrite new_val false] })

/-- Result of `run_healing`/`heal_path`. -/
inductive RunResult where
  | ok : RunResult
  | err (e : ApplyResult) : RunResult
  deriving DecidableEq

/-- Maps `win_to_posix` over a list of entries, `none` when any conversion
panics (Rust `map` + `collect`). -/
def mapOpt (g : String → Option String) : List String → Option (List String)
  | [] => some []
  | x :: xs =>
    match g x, mapOpt g xs with
    | some y, some ys => some (y :: ys)
    | _, _ => none

/-- Propagation of the `apply_path` result by the `?` operator in
`run_healing`. -/
def toRun : ApplyResult → RunResult
  | ApplyResult.ok => RunResult.ok
  | e => RunResult.err e

/-- `run_healing` (src/cleaner.rs:86-208), over the candidate map's value
vectors.  `none` models a panic (reachable only through `win_to_posix`).
In dry-run mode the function computes the diff, prints it, and returns before
any side effect.  In apply mode it first writes the POSIX mirror file --
before `apply_path` is invoked, hence on every non-dry run regardless of the
transaction's outcome -- and then runs `apply_path`, propagating its error. -/
def run_healing (candLists : List (List String)) (f : Faults) (st : Sys)
    (dry_run : Bool) : Option (RunResult × Sys) :=
  let new_path := build_minimal_path candLists ((st.machinePath).getD "")
  if dry_run then some (RunResult.ok, st)
  else
    let stepPosix : Option Sys :=
      if f.userDirsOk then
        match mapOpt win_to_posix
            (pathEntries ((st.machinePath).getD "") ++ pathEntries new_path) with
        | none => none
        | some posixParts =>
          let content := joinSep ":" posixParts ++ "\n"
          if f.posixCreateOk then
            some { st with posixFiles := st.posixFiles ++ [content],
                           trace := st.trace ++ [Effect.posixWrite content] }
          else some st
      else some st
    match stepPosix with
    | none => none
    | some st1 =>
      some (toRun (apply_path f st1 new_path).1, (apply_path f st1 new_path).2)

/-- Result of `clean_system_path`. -/
inductive CleanResult where
  | ok : CleanResult
  | readFailed : CleanResult
  | writeFailed : CleanResult
  deriving DecidableEq

/-- `clean_system_path` (src/cleaner.rs:48-83): read the machine scope
(propagating a read failure), deduplicate, and skip the write when nothing
changed or in dry-run mode. -/
def clean_system_path (f : Faults) (st : Sys) (dry_run : Bool) :
    CleanResult × Sys :=
  match st.machinePath with
  | none => (CleanResult.readFailed, st)
  | some sp =>
    let cleaned := cleanedList sp
    let new_system_path := joinSep ";" cleaned
    let old_count := (pathEntries sp).length
    if old_count = cleaned.length then (CleanResult.ok, st)
    else if dry_run then (CleanResult.ok, st)
    else if f.machineWriteOk then
      (CleanResult.ok,
        { st with machinePath := some new_system_path,
                  trace := st.trace ++ [Effect.machineWrite new_system_path true] })
    else
      (CleanResult.writeFailed,
        { st with trace := st.trace ++ [Effect.machineWrite new_system_path false] })

/-- `heal_path` (src/cleaner.rs:31-43): machine-scope cleanup first (its
result is discarded), then `run_healing` on the possibly-cleaned state. -/
def heal_path (candLists : List (List String)) (f : Faults) (st : Sys)
    (dry_run : Bool) : Option (RunResult × Sys) :=
  run_healing candLists f (clean_system_path f st dry_run).2 dry_run

/-! ### Basic character and string lemmas -/

theorem charOfNat_toNat (n : Nat) (h : n.isValidChar) : (Char.ofNat n).toNat = n := by
  simp only [Char.ofNat, h, dif_pos]
  rfl

theorem lowerChar_eq_self (c : Char) (h : ¬(c.toNat ≥ 65 ∧ c.toNat ≤ 90)) :
    lowerChar c = c := by
  unfold lowerChar
  simp [h]

theorem lowerChar_idem (c : Char) : lowerChar (lowerChar c) = lowerChar c := by
  by_cases h : c.toNat ≥ 65 ∧ c.toNat ≤ 90
  · have hv : (c.toNat + 32).isValidChar := by
      constructor
      omega
    have h1 : lowerChar c = Char.ofNat (c.toNat + 32) := by
      unfold lowerChar
      simp [h]
    have h2 : (lowerChar c).toNat = c.toNat + 32 := by
      rw [h1, charOfNat_toNat _ hv]
    apply lowerChar_eq_self
    omega
  · rw [lowerChar_eq_self c h]
    exact lowerChar_eq_self c h

theorem lowerStr_data (s : String) : (lowerStr s).data = s.data.map lowerChar := rfl

theorem lowerStr_idem (s : String) : lowerStr (lowerStr s) = lowerStr s := by
  unfold lowerStr
  apply congrArg
  show (List.map lowerChar s.data).map lowerChar = s.data.map lowerChar
  rw [List.map_map]
  apply List.map_congr_left
  intro c _
  exact lowerChar_idem c

theorem normalize_path_idem (s : String) :
    normalize_path (normalize_path s) = normalize_path s := lowerStr_idem s

theorem lowerStr_normalize (s : String) :
    lowerStr (normalize_path s) = normalize_path s := lowerStr_idem s

/-! ### The sort order is a linear order -/

theorem charListLe_total : ∀ a b : List Char,
    charListLe a b = true ∨ charListLe b a = true
  | [], _ => Or.inl rfl
  | _ :: _, [] => Or.inr rfl
  | a :: as, b :: bs => by
    rcases lt_trichotomy a b with h | h | h
    · left
      simp [charListLe, h]
    · subst h
      rcases charListLe_total as bs with ih | ih
      · left
        simp [charListLe, lt_irrefl, ih]
      · right
        simp [charListLe, lt_irrefl, ih]
    · right
      simp [charListLe, h]

theorem charListLe_trans : ∀ a b c : List Char, charListLe a b = true →
    charListLe b c = true → charListLe a c = true
  | [], _, _, _, _ => rfl
  | _ :: _, [], _, h, _ => by simp [charListLe] at h
  | _ :: _, _ :: _, [], _, h => by simp [charListLe] at h
  | a :: as, b :: bs, c :: cs, h1, h2 => by
    by_cases hab : a < b
    · rcases lt_trichotomy b c with hbc | hbc | hbc
      · have : a < c := lt_trans hab hbc
        simp [charListLe, this]
      · subst hbc
        simp [charListLe, hab]
      · have hne : b ≠ c := ne_of_gt hbc
        have hnlt : ¬ b < c := lt_asymm hbc
        simp [charListLe, hnlt, hne] at h2
    · by_cases heq : a = b
      · subst heq
        simp only [charListLe, lt_irrefl, if_false, if_pos rfl, if_neg (lt_irrefl a)] at h1
        by_cases hbc : a < c
        · simp [charListLe, hbc]
        · by_cases heq2 : a = c
          · subst heq2
            simp only [charListLe, lt_irrefl, if_false, if_pos rfl,
              if_neg (lt_irrefl a)] at h2 ⊢
            exact charListLe_trans as bs cs h1 h2
          · simp [charListLe, hbc, heq2] at h2
      · simp [charListLe, hab, heq] at h1

theorem charListLe_antisymm : ∀ a b : List Char, charListLe a b = true →
    charListLe b a = true → a = b
  | [], [], _, _ => rfl
  | [], _ :: _, _, h => by simp [charListLe] at h
  | _ :: _, [], h, _ => by simp [charListLe] at h
  | a :: as, b :: bs, h1, h2 => by
    rcases lt_trichotomy a b with h | h | h
    · have hne : b ≠ a := ne_of_gt h
      have hnlt : ¬ b < a := lt_asymm h
      simp [charListLe, hnlt, hne] at h2
    · subst h
      simp only [charListLe, lt_irrefl, if_false, if_pos rfl, if_neg (lt_irrefl a)] at h1 h2
      rw [charListLe_antisymm as bs h1 h2]
    · have hne : a ≠ b := ne_of_gt h
      have hnlt : ¬ a < b := lt_asymm h
      simp [charListLe, hnlt, hne] at h1

instance : IsTotal String strLe :=
  ⟨fun a b => charListLe_total a.data b.data⟩

instance : IsTrans String strLe :=
  ⟨fun a b c => charListLe_trans a.data b.data c.data⟩

instance : IsAntisymm String strLe :=
  ⟨fun a b h1 h2 => by
    have h := charListLe_antisymm a.data b.data h1 h2
    cases a
    cases b
    exact congrArg String.mk h⟩

/-! ### Properties of the machine-scope deduplication loop -/

theorem cleanParts_sublist : ∀ parts seen, (cleanParts parts seen).Sublist parts
  | [], _ => List.Sublist.slnil
  | p :: rest, seen => by
    unfold cleanParts
    by_cases h1 : p = ""
    · rw [if_pos h1]
      exact (cleanParts_sublist rest seen).cons p
    · rw [if_neg h1]
      by_cases h2 : lowerStr p ∈ seen
      · rw [if_pos h2]
        exact (cleanParts_sublist rest seen).cons p
      · rw [if_neg h2]
        exact (cleanParts_sublist rest _).cons₂ p

theorem cleanParts_mem_lower : ∀ parts seen x, x ∈ cleanParts parts seen →
    lowerStr x ∉ seen
  | [], _, x, hx => by simp [cleanParts] at hx
  | p :: rest, seen, x, hx => by
    unfold cleanParts at hx
    by_cases h1 : p = ""
    · rw [if_pos h1] at hx
      exact cleanParts_mem_lower rest seen x hx
    · rw [if_neg h1] at hx
      by_cases h2 : lowerStr p ∈ seen
      · rw [if_pos h2] at hx
        exact cleanParts_mem_lower rest seen x hx
      · rw [if_neg h2] at hx
        rcases List.mem_cons.mp hx with h | h
        · subst h
          exact h2
        · have hni := cleanParts_mem_lower rest _ x h
          intro hmem
          exact hni (List.mem_cons_of_mem _ hmem)

theorem cleanParts_pairwise : ∀ parts seen,
    (cleanParts parts seen).Pairwise (fun a b => lowerStr a ≠ lowerStr b)
  | [], _ => List.Pairwise.nil
  | p :: rest, seen => by
    unfold cleanParts
    by_cases h1 : p = ""
    · rw [if_pos h1]
      exact cleanParts_pairwise rest seen
    · rw [if_neg h1]
      by_cases h2 : lowerStr p ∈ seen
      · rw [if_pos h2]
        exact cleanParts_pairwise rest seen
      · rw [if_neg h2]
        refine List.Pairwise.cons ?_ (cleanParts_pairwise rest _)
        intro b hb he
        have hni := cleanParts_mem_lower rest _ b hb
        apply hni
        rw [← he]
        exact List.mem_cons_self _ _

theorem cleanParts_firstSeen : ∀ pre p post seen, p ≠ "" → lowerStr p ∉ seen →
    (∀ q ∈ pre, lowerStr q ≠ lowerStr p) →
    p ∈ cleanParts (pre ++ p :: post) seen
  | [], p, post, seen, hp, hs, _ => by
    simp only [List.nil_append]
    unfold cleanParts
    rw [if_neg hp, if_neg hs]
    exact List.mem_cons_self _ _
  | q :: pre, p, post, seen, hp, hs, hpre => by
    simp only [List.cons_append]
    unfold cleanParts
    by_cases h1 : q = ""
    · rw [if_pos h1]
      exact cleanParts_firstSeen pre p post seen hp hs
        (fun r hr => hpre r (List.mem_cons_of_mem _ hr))
    · rw [if_neg h1]
      by_cases h2 : lowerStr q ∈ seen
      · rw [if_pos h2]
        exact cleanParts_firstSeen pre p post seen hp hs
          (fun r hr => hpre r (List.mem_cons_of_mem _ hr))
      · rw [if_neg h2]
        apply List.mem_cons_of_mem
        apply cleanParts_firstSeen pre p post _ hp ?_
          (fun r hr => hpre r (List.mem_cons_of_mem _ hr))
        intro hmem
        rcases List.mem_cons.mp hmem with h | h
        · exact hpre q (List.mem_cons_self _ _) h.symm
        · exact hs h

/-! ### Properties of the user-scope build loop -/

theorem buildLoop_mem : ∀ cands seen x, x ∈ buildLoop cands seen ↔
    ((∃ c ∈ cands, normalize_path c = x) ∧
      windowsSkip (lowerStr x) = false ∧ x ∉ seen)
  | [], seen, x => by simp [buildLoop]
  | c :: rest, seen, x => by
    simp only [buildLoop]
    by_cases h1 : windowsSkip (lowerStr (normalize_path c)) = true
    · rw [if_pos h1, buildLoop_mem rest seen x]
      constructor
      · rintro ⟨⟨c', hc', he⟩, hw, hs⟩
        exact ⟨⟨c', List.mem_cons_of_mem _ hc', he⟩, hw, hs⟩
      · rintro ⟨⟨c', hc', he⟩, hw, hs⟩
        rcases List.mem_cons.mp hc' with h | h
        · subst h
          subst he
          rw [h1] at hw
          cases hw
        · exact ⟨⟨c', h, he⟩, hw, hs⟩
    · rw [if_neg h1]
      have h1f : windowsSkip (lowerStr (normalize_path c)) = false :=
        Bool.not_eq_true _ ▸ Bool.eq_false_iff.mpr h1
      by_cases h2 : normalize_path c ∈ seen
      · rw [if_pos h2, buildLoop_mem rest seen x]
        constructor
        · rintro ⟨⟨c', hc', he⟩, hw, hs⟩
          exact ⟨⟨c', List.mem_cons_of_mem _ hc', he⟩, hw, hs⟩
        · rintro ⟨⟨c', hc', he⟩, hw, hs⟩
          rcases List.mem_cons.mp hc' with h | h
          · subst h
            subst he
            exact absurd h2 hs
          · exact ⟨⟨c', h, he⟩, hw, hs⟩
      · rw [if_neg h2]
        rw [List.mem_cons, buildLoop_mem rest _ x]
        constructor
        · rintro (h | ⟨⟨c', hc', he⟩, hw, hs⟩)
          · subst h
            exact ⟨⟨c, List.mem_cons_self _ _, rfl⟩, h1f, h2⟩
          · refine ⟨⟨c', List.mem_cons_of_mem _ hc', he⟩, hw, ?_⟩
            intro hmem
            exact hs (List.mem_cons_of_mem _ hmem)
        · rintro ⟨⟨c', hc', he⟩, hw, hs⟩
          by_cases hx : x = normalize_path c
          · exact Or.inl hx
          · right
            rcases List.mem_cons.mp hc' with h | h
            · subst h
              exact absurd he.symm hx
            · refine ⟨⟨c', h, he⟩, hw, ?_⟩
              rw [List.mem_cons]
              rintro (h' | h')
              · exact hx h'
              · exact hs h'

theorem buildLoop_not_mem_seen (cands seen : List String) (x : String)
    (hx : x ∈ buildLoop cands seen) : x ∉ seen :=
  ((buildLoop_mem cands seen x).mp hx).2.2

theorem buildLoop_nodup : ∀ cands seen, (buildLoop cands seen).Nodup
  | [], _ => List.nodup_nil
  | c :: rest, seen => by
    simp only [buildLoop]
    by_cases h1 : windowsSkip (lowerStr (normalize_path c)) = true
    · rw [if_pos h1]
      exact buildLoop_nodup rest seen
    · rw [if_neg h1]
      by_cases h2 : normalize_path c ∈ seen
      · rw [if_pos h2]
        exact buildLoop_nodup rest seen
      · rw [if_neg h2]
        refine List.Nodup.cons ?_ (buildLoop_nodup rest _)
        intro hmem
        have hni := buildLoop_not_mem_seen rest _ _ hmem
        exact hni (List.mem_cons_self _ _)

theorem buildLoop_normalized (cands seen : List String) (x : String)
    (hx : x ∈ buildLoop cands seen) : normalize_path x = x := by
  obtain ⟨⟨c, _, he⟩, _, _⟩ := (buildLoop_mem cands seen x).mp hx
  rw [← he]
  exact normalize_path_idem c

theorem build_list_perm_loop (cl : List (List String)) (sys : String) :
    (build_minimal_path_list cl sys).Perm (buildLoop cl.flatten (sysNorm sys)) :=
  List.perm_insertionSort _ _

theorem build_list_mem (cl : List (List String)) (sys : String) (x : String) :
    x ∈ build_minimal_path_list cl sys ↔
      ((∃ c ∈ cl.flatten, normalize_path c = x) ∧
        windowsSkip (lowerStr x) = false ∧ x ∉ sysNorm sys) := by
  rw [(build_list_perm_loop cl sys).mem_iff, buildLoop_mem]

theorem build_list_nodup (cl : List (List String)) (sys : String) :
    (build_minimal_path_list cl sys).Nodup :=
  ((build_list_perm_loop cl sys).nodup_iff).mpr (buildLoop_nodup _ _)

theorem build_list_sorted (cl : List (List String)) (sys : String) :
    List.Sorted strLe (build_minimal_path_list cl sys) :=
  List.sorted_insertionSort _ _

theorem buildLoop_perm_of_perm (cands₁ cands₂ seen : List String)
    (h : cands₁.Perm cands₂) :
    (buildLoop cands₁ seen).Perm (buildLoop cands₂ seen) := by
  rw [List.perm_ext_iff_of_nodup (buildLoop_nodup _ _) (buildLoop_nodup _ _)]
  intro a
  rw [buildLoop_mem, buildLoop_mem]
  constructor
  · rintro ⟨⟨c, hc, he⟩, hw, hs⟩
    exact ⟨⟨c, h.mem_iff.mp hc, he⟩, hw, hs⟩
  · rintro ⟨⟨c, hc, he⟩, hw, hs⟩
    exact ⟨⟨c, h.mem_iff.mpr hc, he⟩, hw, hs⟩

theorem build_list_eq_of_perm (cl₁ cl₂ : List (List String)) (sys : String)
    (h : cl₁.flatten.Perm cl₂.flatten) :
    build_minimal_path_list cl₁ sys = build_minimal_path_list cl₂ sys := by
  apply List.eq_of_perm_of_sorted ?_ (build_list_sorted cl₁ sys) (build_list_sorted cl₂ sys)
  exact ((build_list_perm_loop cl₁ sys).trans
    (buildLoop_perm_of_perm _ _ _ h)).trans (build_list_perm_loop cl₂ sys).symm

/-! ### Frame lemmas for the transactional applier -/

theorem apply_path_posixFiles (f : Faults) (st : Sys) (v : String) :
    ((apply_path f st v).2).posixFiles = st.posixFiles := by
  obtain ⟨b1, b2, b3, b4, b5, b6, b7, b8, b9⟩ := f
  cases b1 <;> cases b2 <;> cases b3 <;> cases b4 <;> cases b5 <;> cases b6 <;>
    simp [apply_path]

theorem apply_path_trace_prefix (f : Faults) (st : Sys) (v : String) :
    st.trace <+: ((apply_path f st v).2).trace := by
  obtain ⟨b1, b2, b3, b4, b5, b6, b7, b8, b9⟩ := f
  cases b1 <;> cases b2 <;> cases b3 <;> cases b4 <;> cases b5 <;> cases b6 <;>
    simp [apply_path, List.append_assoc]

theorem apply_path_fst_frame (f : Faults) (st : Sys) (v : String)
    (pf : List String) (tr : List Effect) :
    (apply_path f { st with posixFiles := pf, trace := tr } v).1 =
      (apply_path f st v).1 := by
  obtain ⟨b1, b2, b3, b4, b5, b6, b7, b8, b9⟩ := f
  cases b1 <;> cases b2 <;> cases b3 <;> cases b4 <;> cases b5 <;> cases b6 <;>
    simp [apply_path]

theorem apply_path_posix_fault_frame (b1 b2 b3 b4 b5 b6 b7 b8 b9 p : Bool)
    (st : Sys) (v : String) :
    apply_path (Faults.mk b1 b2 b3 b4 b5 b6 b7 p b9) st v =
      apply_path (Faults.mk b1 b2 b3 b4 b5 b6 b7 b8 b9) st v := rfl

/-! ### Totality analysis of the POSIX path conversion -/

theorem replBack_utf8Size (c : Char) : (replBack c).utf8Size = c.utf8Size := by
  unfold replBack
  by_cases h : c = '\\'
  · subst h
    decide
  · rw [if_neg h]

theorem replBack_eq_colon (c : Char) : replBack c = ':' ↔ c = ':' := by
  unfold replBack
  by_cases h : c = '\\'
  · subst h
    simp
  · rw [if_neg h]

/-! ### Claim theorems -/

theorem build_list_normalized (cl : List (List String)) (sys : String)
    (x : String) (hx : x ∈ build_minimal_path_list cl sys) :
    normalize_path x = x :=
  buildLoop_normalized _ _ x ((build_list_perm_loop cl sys).mem_iff.mp hx)

/-- C1: for every candidate map and machine-scope value, the user-scope
entry sequence built by `build_minimal_path` contains no two entries whose
normalized (case-folded) forms are equal, and for every raw machine-scope
value, the deduplicated entry sequence produced by `clean_system_path`
contains no two entries whose normalized forms are equal. -/
theorem build_and_clean_no_normalized_duplicates
    (candLists : List (List String)) (sysStr machStr : String) :
    (build_minimal_path_list candLists sysStr).Pairwise
      (fun a b => normalize_path a ≠ normalize_path b) ∧
    (cleanedList machStr).Pairwise
      (fun a b => normalize_path a ≠ normalize_path b) := by
  constructor
  · refine (build_list_nodup candLists sysStr).imp_of_mem ?_
    intro a b ha hb hne
    rw [build_list_normalized candLists sysStr a ha,
      build_list_normalized candLists sysStr b hb]
    exact hne
  · exact cleanParts_pairwise _ _

/-- C2: no entry of the built user-scope sequence has a normalized form
equal to the normalized form of any nonempty entry of the machine-scope
value read at build time. -/
theorem build_excludes_machine_scope
    (candLists : List (List String)) (sysStr x m : String)
    (hx : x ∈ build_minimal_path_list candLists sysStr)
    (hm : m ∈ splitSemi sysStr) (hne : m ≠ "") :
    normalize_path x ≠ normalize_path m := by
  intro he
  obtain ⟨⟨c, _, hcx⟩, _, hs⟩ := (build_list_mem candLists sysStr x).mp hx
  apply hs
  have hxn : normalize_path x = x := by
    rw [← hcx]
    exact normalize_path_idem c
  rw [← hxn, he]
  unfold sysNorm pathEntries
  apply List.mem_map_of_mem
  rw [List.mem_filter]
  refine ⟨hm, ?_⟩
  simp [hne]

theorem build_excludes_machine_scope_witness :
    (("d:\\a") ∈ build_minimal_path_list [[("d:\\a")]] ("c:\\b")) ∧
    (("c:\\b") ∈ splitSemi ("c:\\b")) ∧ ("c:\\b") ≠ ("") ∧
    normalize_path ("d:\\a") ≠ normalize_path ("c:\\b") :=
  ⟨by decide, by decide, by decide,
    build_excludes_machine_scope [[("d:\\a")]] ("c:\\b") _ _
      (by decide) (by decide) (by decide)⟩

/-- C4: the output of `build_minimal_path` is a function of the *set* of
candidates only -- any two candidate maps whose candidate multisets are
permutations of one another yield byte-identical output strings -- and the
built entry sequence is sorted (lexicographically on the normalized
entries). -/
theorem build_deterministic_and_sorted
    (cl₁ cl₂ : List (List String)) (sysStr : String)
    (h : cl₁.flatten.Perm cl₂.flatten) :
    build_minimal_path cl₁ sysStr = build_minimal_path cl₂ sysStr ∧
    List.Sorted strLe (build_minimal_path_list cl₁ sysStr) :=
  ⟨congrArg (joinSep ";") (build_list_eq_of_perm cl₁ cl₂ sysStr h),
    build_list_sorted cl₁ sysStr⟩

theorem build_deterministic_and_sorted_witness :
    ([[("b:\\q")], [("a:\\p")]] : List (List String)).flatten.Perm
      ([[("a:\\p"), ("b:\\q")]] : List (List String)).flatten ∧
    build_minimal_path [[("b:\\q")], [("a:\\p")]] ("") =
      build_minimal_path [[("a:\\p"), ("b:\\q")]] ("") ∧
    List.Sorted strLe (build_minimal_path_list [[("b:\\q")], [("a:\\p")]] ("")) :=
  ⟨by decide,
    build_deterministic_and_sorted [[("b:\\q")], [("a:\\p")]]
      [[("a:\\p"), ("b:\\q")]] ("") (by decide)⟩

/-- C5 counterexample: `build_minimal_path` does *not* retain the original
casing of the first-seen variant: the stored entry is the lowercased
(normalized) form. -/
theorem build_stores_lowercased_cex :
    build_minimal_path [[("C:\\Tools\\Bin")]] ("") = ("c:\\tools\\bin") ∧
    ("c:\\tools\\bin") ≠ ("C:\\Tools\\Bin") := by
  decide

/-- C5 amended: entries stored by `clean_system_path` are the original
first-seen strings -- the cleaned sequence is a sublist of the input
segments, and the earliest nonempty segment of each case-folded class is
kept -- whereas every entry stored by `build_minimal_path` is the
*normalized* (lowercased) form of a candidate, not its original casing. -/
theorem stored_forms_characterization
    (machStr : String) (cl : List (List String)) (sysStr : String) :
    (cleanedList machStr).Sublist (splitSemi machStr) ∧
    (∀ pre p post, splitSemi machStr = pre ++ p :: post → p ≠ "" →
      (∀ q ∈ pre, lowerStr q ≠ lowerStr p) → p ∈ cleanedList machStr) ∧
    (∀ x ∈ build_minimal_path_list cl sysStr,
      ∃ c ∈ cl.flatten, x = normalize_path c) := by
  refine ⟨cleanParts_sublist _ _, ?_, ?_⟩
  · intro pre p post hsplit hp hpre
    unfold cleanedList
    rw [hsplit]
    apply cleanParts_firstSeen pre p post [] hp ?_ hpre
    exact List.not_mem_nil _
  · intro x hx
    obtain ⟨⟨c, hc, he⟩, _, _⟩ := (build_list_mem cl sysStr x).mp hx
    exact ⟨c, hc, he.symm⟩

theorem stored_forms_characterization_witness :
    (cleanedList ("A;a;B")).Sublist (splitSemi ("A;a;B")) ∧
    ("A") ∈ cleanedList ("A;a;B") ∧
    (∃ c ∈ ([[("B:\\c")]] : List (List String)).flatten,
      ("b:\\c") = normalize_path c) :=
  ⟨(stored_forms_characterization ("A;a;B") [[("B:\\c")]] ("")).1,
    (stored_forms_characterization ("A;a;B") [[("B:\\c")]] ("")).2.1
      [] ("A") [("a"), ("B")] (by decide) (by decide)
      (fun q hq => absurd hq (List.not_mem_nil q)),
    (stored_forms_characterization ("A;a;B") [[("B:\\c")]] ("")).2.2
      ("b:\\c") (by decide)⟩

/-- C6 counterexample: a candidate on another drive that merely contains a
`\windows\` segment deeper in its path -- hence *not* under the reserved
`c:\windows` tree -- is nevertheless excluded from the built user scope. -/
theorem windows_exclusion_overbroad_cex :
    build_minimal_path [[("d:\\tools\\windows\\bin")]] ("") = ("") ∧
    strStarts (normalize_path ("d:\\tools\\windows\\bin")) winRoot = false := by
  decide

/-- C6 amended: a candidate is kept by `build_minimal_path` exactly when it
is not already covered by the machine scope and its normalized form passes
the Windows test, which excludes a path exactly when its normalized form
*contains the substring* `\windows\` anywhere or starts with `c:\windows`;
in particular every candidate under the reserved `c:\windows` tree is
excluded, but so is any candidate with a `\windows\` segment on another
root. -/
theorem windows_exclusion_characterization
    (cl : List (List String)) (sysStr x : String) :
    (x ∈ build_minimal_path_list cl sysStr ↔
      ((∃ c ∈ cl.flatten, normalize_path c = x) ∧
        (containsSub (lowerStr x) winSegment || strStarts (lowerStr x) winRoot) = false ∧
        x ∉ sysNorm sysStr)) ∧
    (strStarts (lowerStr x) winRoot = true → x ∉ build_minimal_path_list cl sysStr) := by
  constructor
  · rw [build_list_mem]
    unfold windowsSkip
    exact Iff.rfl
  · intro hroot hx
    obtain ⟨_, hw, _⟩ := (build_list_mem cl sysStr x).mp hx
    unfold windowsSkip at hw
    rw [hroot, Bool.or_true] at hw
    cases hw

theorem windows_exclusion_characterization_witness :
    strStarts (lowerStr ("c:\\windows\\system32")) winRoot = true ∧
    ("c:\\windows\\system32") ∉
      build_minimal_path_list [[("C:\\Windows\\System32")]] ("") :=
  ⟨by decide,
    (windows_exclusion_characterization [[("C:\\Windows\\System32")]] ("")
      ("c:\\windows\\system32")).2 (by decide)⟩

/-- C3: in `apply_path`, when verification fails after the user-scope write,
the previously read user-scope value string is rewritten exactly
(byte-identical) and the ordinary rolled-back failure is reported; when the
rollback write itself fails, the distinct, more severe manual-recovery error
is reported instead, never the rolled-back category. -/
theorem apply_rollback_exact_or_escalates (f : Faults) (st : Sys) (v : String)
    (h4 : f.userWrite1Ok = true) (h6 : f.verifyOk = false) :
    (f.rollbackWriteOk = true →
      (apply_path f st v).1 = ApplyResult.rolledBack ∧
      ((apply_path f st v).2).userPath = some ((st.userPath).getD "")) ∧
    (f.rollbackWriteOk = false →
      (apply_path f st v).1 = ApplyResult.unrecoverable ∧
      ApplyResult.unrecoverable ≠ ApplyResult.rolledBack) := by
  obtain ⟨b1, b2, b3, b4, b5, b6, b7, b8, b9⟩ := f
  change b4 = true at h4
  change b6 = false at h6
  subst h4
  subst h6
  constructor
  · intro h5
    change b5 = true at h5
    subst h5
    cases b1 <;> cases b2 <;> cases b3 <;> simp [apply_path]
  · intro h5
    change b5 = false at h5
    subst h5
    refine ⟨?_, by decide⟩
    cases b1 <;> cases b2 <;> cases b3 <;> simp [apply_path]

theorem apply_rollback_exact_or_escalates_witness :
    ((Faults.mk true true true true true false true true true).userWrite1Ok = true) ∧
    ((Faults.mk true true true true true false true true true).verifyOk = false) ∧
    ((Faults.mk true true true true true false true true true).rollbackWriteOk = true) ∧
    ((apply_path (Faults.mk true true true true true false true true true)
        (Sys.mk (some ("old")) none [] [] 0 0 []) ("new")).1 = ApplyResult.rolledBack ∧
      ((apply_path (Faults.mk true true true true true false true true true)
          (Sys.mk (some ("old")) none [] [] 0 0 []) ("new")).2).userPath = some ("old")) :=
  ⟨rfl, rfl, rfl,
    (apply_rollback_exact_or_escalates
      (Faults.mk true true true true true false true true true)
      (Sys.mk (some ("old")) none [] [] 0 0 []) ("new") rfl rfl).1 rfl⟩

/-- C7: with dry-run set, `run_healing`, `clean_system_path` and their
composition `heal_path` leave the system state completely unchanged: no
write to either configuration scope, no backup file, no mirror file, no
broadcast, and no verification probe. -/
theorem dry_run_no_effects (candLists : List (List String)) (f : Faults) (st : Sys) :
    run_healing candLists f st true = some (RunResult.ok, st) ∧
    (clean_system_path f st true).2 = st ∧
    heal_path candLists f st true = some (RunResult.ok, st) := by
  have h1 : run_healing candLists f st true = some (RunResult.ok, st) := by
    simp [run_healing]
  have h2 : (clean_system_path f st true).2 = st := by
    cases hm : st.machinePath with
    | none => simp [clean_system_path, hm]
    | some sp =>
      simp only [clean_system_path, hm]
      split <;> simp
  refine ⟨h1, h2, ?_⟩
  unfold heal_path
  rw [h2, h1]

/-- C8: with the backup failing -- either its directory creation or the
backup-file write -- the transaction is not aborted: the backup is attempted
first, then the user-scope write, the two broadcasts and the verification
probe all still run, and the overall result is still success. -/
theorem backup_failure_does_not_abort (f : Faults) (st : Sys) (v : String)
    (h1 : f.baseDirsOk = true) (h4 : f.userWrite1Ok = true)
    (h6 : f.verifyOk = true) (hb : f.createDirOk = false ∨ f.backupWriteOk = false) :
    (apply_path f st v).1 = ApplyResult.ok ∧
    ((apply_path f st v).2).userPath = some v ∧
    ((apply_path f st v).2).broadcasts = st.broadcasts + 2 ∧
    ((apply_path f st v).2).verifies = st.verifies + 1 ∧
    ((apply_path f st v).2).trace =
      st.trace ++
        (if f.createDirOk = true then
          [Effect.backupAttempt (regContent ((st.userPath).getD ""))]
        else [Effect.backupDirFail]) ++
        [Effect.userWrite v true, Effect.broadcast, Effect.broadcast,
          Effect.probe true] := by
  obtain ⟨b1, b2, b3, b4, b5, b6, b7, b8, b9⟩ := f
  change b1 = true at h1
  change b4 = true at h4
  change b6 = true at h6
  change b2 = false ∨ b3 = false at hb
  subst h1
  subst h4
  subst h6
  cases b2
  · cases b3 <;> simp [apply_path, List.append_assoc]
  · cases b3
    · simp [apply_path, List.append_assoc]
    · rcases hb with h | h <;> exact Bool.noConfusion h

theorem backup_failure_does_not_abort_witness :
    ((Faults.mk true false true true true true true true true).baseDirsOk = true) ∧
    ((Faults.mk true false true true true true true true true).createDirOk = false) ∧
    ((apply_path (Faults.mk true false true true true true true true true)
        (Sys.mk (some ("old")) none [] [] 0 0 []) ("new")).1 = ApplyResult.ok ∧
      ((apply_path (Faults.mk true false true true true true true true true)
          (Sys.mk (some ("old")) none [] [] 0 0 []) ("new")).2).userPath = some ("new")) :=
  ⟨rfl, rfl, by
    have h := backup_failure_does_not_abort
      (Faults.mk true false true true true true true true true)
      (Sys.mk (some ("old")) none [] [] 0 0 []) ("new") rfl rfl rfl (Or.inl rfl)
    exact ⟨h.1, h.2.1⟩⟩

/-! ### The POSIX mirror write in `run_healing` -/

theorem run_healing_posix_eq (cl : List (List String)) (f : Faults) (st : Sys)
    (pl : List String) (h7 : f.userDirsOk = true) (h8 : f.posixCreateOk = true)
    (hm : mapOpt win_to_posix
        (pathEntries ((st.machinePath).getD "") ++
          pathEntries (build_minimal_path cl ((st.machinePath).getD ""))) = some pl) :
    run_healing cl f st false =
      some (toRun (apply_path f
          { st with posixFiles := st.posixFiles ++ [joinSep ":" pl ++ "\n"],
                    trace := st.trace ++ [Effect.posixWrite (joinSep ":" pl ++ "\n")] }
          (build_minimal_path cl ((st.machinePath).getD ""))).1,
        (apply_path f
          { st with posixFiles := st.posixFiles ++ [joinSep ":" pl ++ "\n"],
                    trace := st.trace ++ [Effect.posixWrite (joinSep ":" pl ++ "\n")] }
          (build_minimal_path cl ((st.machinePath).getD ""))).2) := by
  simp [run_healing, h7, h8, hm]

theorem run_healing_nofile_eq (cl : List (List String)) (f : Faults) (st : Sys)
    (pl : List String) (h7 : f.userDirsOk = true) (h8 : f.posixCreateOk = false)
    (hm : mapOpt win_to_posix
        (pathEntries ((st.machinePath).getD "") ++
          pathEntries (build_minimal_path cl ((st.machinePath).getD ""))) = some pl) :
    run_healing cl f st false =
      some (toRun (apply_path f st
          (build_minimal_path cl ((st.machinePath).getD ""))).1,
        (apply_path f st (build_minimal_path cl ((st.machinePath).getD ""))).2) := by
  simp [run_healing, h7, h8, hm]

/-- C9 counterexample: the POSIX mirror file is written even when the
transaction fails verification and rolls back -- it is not a success-path
side effect. -/
theorem posix_mirror_on_failure_cex :
    (run_healing [[("c:\\x")]] (Faults.mk true true true true true false true true true)
        (Sys.mk (some ("a")) (some ("")) [] [] 0 0 []) false).map
        (fun p => (p.1, (p.2).posixFiles)) =
      some (RunResult.err ApplyResult.rolledBack, [("/c/x\n")]) := by
  decide

/-- C9 amended: in non-dry-run mode the POSIX mirror file (machine-scope
entries followed by user-scope entries, each converted by `win_to_posix` and
joined with ':') is written *before* `apply_path` runs, hence on every apply
attempt regardless of the transaction's outcome; a failure to create the
file is non-fatal and does not affect the transaction's result. -/
theorem posix_mirror_written_before_apply
    (cl : List (List String)) (f : Faults) (st : Sys) (pl : List String)
    (h7 : f.userDirsOk = true)
    (hm : mapOpt win_to_posix
        (pathEntries ((st.machinePath).getD "") ++
          pathEntries (build_minimal_path cl ((st.machinePath).getD ""))) = some pl) :
    (f.posixCreateOk = true →
      ∃ r st', run_healing cl f st false = some (r, st') ∧
        st'.posixFiles = st.posixFiles ++ [joinSep ":" pl ++ "\n"] ∧
        (st.trace ++ [Effect.posixWrite (joinSep ":" pl ++ "\n")]) <+: st'.trace) ∧
    Option.map Prod.fst (run_healing cl { f with posixCreateOk := false } st false) =
      Option.map Prod.fst (run_healing cl f st false) := by
  constructor
  · intro h8
    refine ⟨_, _, run_healing_posix_eq cl f st pl h7 h8 hm, ?_, ?_⟩
    · rw [apply_path_posixFiles]
    · exact apply_path_trace_prefix f
        { st with posixFiles := st.posixFiles ++ [joinSep ":" pl ++ "\n"],
                  trace := st.trace ++ [Effect.posixWrite (joinSep ":" pl ++ "\n")] }
        (build_minimal_path cl ((st.machinePath).getD ""))
  · obtain ⟨b1, b2, b3, b4, b5, b6, b7, b8, b9⟩ := f
    change b7 = true at h7
    subst h7
    cases b8
    · rfl
    · rw [run_healing_nofile_eq _ _ _ pl rfl rfl hm,
        run_healing_posix_eq _ _ _ pl rfl rfl hm]
      simp only [Option.map_some']
      rw [apply_path_posix_fault_frame b1 b2 b3 b4 b5 b6 true true b9 false]
      have hf := apply_path_fst_frame
        (Faults.mk b1 b2 b3 b4 b5 b6 true true b9) st
        (build_minimal_path cl ((st.machinePath).getD ""))
        (st.posixFiles ++ [joinSep ":" pl ++ "\n"])
        (st.trace ++ [Effect.posixWrite (joinSep ":" pl ++ "\n")])
      rw [hf]

theorem posix_mirror_written_before_apply_witness :
    ((Faults.mk true true true true true false true true true).userDirsOk = true) ∧
    (mapOpt win_to_posix
        (pathEntries (((Sys.mk (some ("a")) (some ("")) [] [] 0 0 []).machinePath).getD "") ++
          pathEntries (build_minimal_path [[("c:\\x")]]
            (((Sys.mk (some ("a")) (some ("")) [] [] 0 0 []).machinePath).getD ""))) =
      some [("/c/x")]) ∧
    (∃ r st', run_healing [[("c:\\x")]]
        (Faults.mk true true true true true false true true true)
        (Sys.mk (some ("a")) (some ("")) [] [] 0 0 []) false = some (r, st') ∧
      st'.posixFiles = [] ++ [joinSep ":" [("/c/x")] ++ "\n"] ∧
      ([] ++ [Effect.posixWrite (joinSep ":" [("/c/x")] ++ "\n")]) <+: st'.trace) :=
  ⟨rfl, by decide,
    (posix_mirror_written_before_apply [[("c:\\x")]]
      (Faults.mk true true true true true false true true true)
      (Sys.mk (some ("a")) (some ("")) [] [] 0 0 []) [("/c/x")] rfl (by decide)).1 rfl⟩

/-- C10 counterexample: `win_to_posix` panics on an input whose first
character occupies three UTF-8 bytes and whose second character is ':' --
the byte slice `&s[2..]` is taken at a non-boundary offset. -/
theorem win_to_posix_panics_cex : win_to_posix ("€:") = none := by decide

/-- C10 amended: `win_to_posix` returns normally for every input string
except exactly those whose second character is ':' while the first character
occupies at least three UTF-8 bytes; on those the byte slice at offset 2 is
not on a character boundary and the Rust code panics. -/
theorem win_to_posix_panic_iff (path : String) :
    win_to_posix path = none ↔
      ∃ c0 c1 rest, path.data = c0 :: c1 :: rest ∧ c1 = ':' ∧ 3 ≤ c0.utf8Size := by
  cases hp : path.data with
  | nil =>
    have hne : win_to_posix path ≠ none := by
      simp [win_to_posix, hp]
    constructor
    · intro h
      exact absurd h hne
    · rintro ⟨c0, c1, rest, heq, -, -⟩
      cases heq
  | cons c0 t =>
    cases t with
    | nil =>
      have hne : win_to_posix path ≠ none := by
        simp [win_to_posix, hp]
      constructor
      · intro h
        exact absurd h hne
      · rintro ⟨c0', c1', rest', heq, -, -⟩
        injection heq with e1 e2
        cases e2
    | cons c1 rest =>
      have hpos := Char.utf8Size_pos c0
      by_cases hc : c1 = ':'
      · subst hc
        have hrc : replBack ':' = ':' := by decide
        by_cases hs1 : c0.utf8Size = 1
        · have hne : win_to_posix path ≠ none := by
            simp [win_to_posix, hp, hrc, replBack_utf8Size, hs1]
          constructor
          · intro h
            exact absurd h hne
          · rintro ⟨c0', c1', rest', heq, -, hsz⟩
            injection heq with e1 e2
            subst e1
            omega
        · by_cases hs2 : c0.utf8Size = 2
          · have hne : win_to_posix path ≠ none := by
              simp [win_to_posix, hp, hrc, replBack_utf8Size, hs1, hs2]
            constructor
            · intro h
              exact absurd h hne
            · rintro ⟨c0', c1', rest', heq, -, hsz⟩
              injection heq with e1 e2
              subst e1
              omega
          · have hyes : win_to_posix path = none := by
              simp [win_to_posix, hp, hrc, replBack_utf8Size, hs1, hs2]
            rw [hyes]
            constructor
            · intro _
              exact ⟨c0, ':', rest, rfl, rfl, by omega⟩
            · intro _
              rfl
      · have hne : win_to_posix path ≠ none := by
          simp [win_to_posix, hp, replBack_eq_colon, hc]
        constructor
        · intro h
          exact absurd h hne
        · rintro ⟨c0', c1', rest', heq, hcol, -⟩
          injection heq with e1 e2
          injection e2 with e3 e4
          exact absurd (e3.trans hcol) hc

end Wanderlust
